import Mathlib

/-!
Shallow embedding of the WebRTC signaling server in `src/server.js`.

The server keeps two collections:
* the Presence Store: the `users` map of `online.json`, re-read with
  `loadOnline()` and re-written with `saveOnline()` on every change
  (modelled as the `file` field of `State`, holding the parsed content);
* the Connection Registry: `const sockets = new Map()` mapping a user id to
  its WebSocket (modelled as `sockets`, mapping a user id to a connection
  number; per-connection data lives in `conns`).

JavaScript `Map`s and plain objects are modelled as insertion-ordered
association lists: assignment updates an existing key in place, otherwise
appends; `delete` removes the entry.  Every handler returns the new state,
the list of observable transport events (sends, pings, terminations, one
`Event.broadcast` marker per `broadcastOnline()` call) and a flag telling
whether an uncaught exception escaped the handler (the only throwing
operation the handlers do not guard is `saveOnline`, i.e. the
`fs.writeFileSync` durability write; its success is the `saveOk` argument).
-/

namespace Signal

/-- A presence entry `{ id, name, avatar }` as stored in `online.json`
(`state.users[myId] = { id: myId, name: msg.me.name, avatar: msg.me.avatar }`). -/
structure User where
  id : String
  name : String
  avatar : String
deriving DecidableEq

/-- The `me` object of a `hello` message.  A missing or empty `me.id`
(both falsy in `if (!myId) return`) is modelled as `""`. -/
structure Me where
  id : String
  name : String
  avatar : String
deriving DecidableEq

/-- The four routed signaling tags (`offer`, `answer`, `ice`, `end`). -/
inductive RType where
  | offer
  | answer
  | ice
  | end_
deriving DecidableEq

/-- A parsed routed message: tag, `to` field (called `to_` here because
`to` is reserved), and the remaining payload fields, which
`JSON.stringify(msg)` forwards untouched. -/
structure RelayMsg where
  rtype : RType
  to_ : String
  extra : List (String × String)
deriving DecidableEq

/-- A parsed inbound message, after `JSON.parse`.  `other` stands for any
unrecognized tag; an unparseable frame also has no effect, like `other`. -/
inductive InMsg where
  | hello (me : Option Me)
  | relay (m : RelayMsg)
  | pong
  | other
deriving DecidableEq

/-- A serialized outbound frame. -/
inductive WireMsg where
  | online (users : List User)
  | relay (m : RelayMsg)
deriving DecidableEq

/-- Observable transport effects of one handler run.  `broadcast us` marks
one invocation of `broadcastOnline()` with presence snapshot `us`; the
individual `ws.send(payload)` calls it makes appear as `sent` events. -/
inductive Event where
  | sent (c : Nat) (m : WireMsg)
  | pinged (c : Nat)
  | terminated (c : Nat)
  | broadcast (users : List User)
deriving DecidableEq

/-- Per-connection data: the `myId` closure variable of the `connection`
handler, the `ws.isAlive` heartbeat flag, and whether the socket is open
(`ws.readyState === ws.OPEN`). -/
structure Conn where
  myId : Option String
  isAlive : Bool
  isOpen : Bool
deriving DecidableEq

/-- The whole server state: parsed `online.json` content, the
`sockets` registry, and the per-connection records keyed by connection
number. -/
structure State where
  file : List (String × User)
  sockets : List (String × Nat)
  conns : List (Nat × Conn)
deriving DecidableEq

/-- Result of running one handler: new state, emitted events, and whether
an uncaught exception escaped the handler. -/
structure StepOut where
  st : State
  out : List Event
  exn : Bool
deriving DecidableEq

/-! ### Association-list maps with JavaScript `Map`/object semantics -/

/-- `Map.get` / property read. -/
def lookupK {κ α : Type} [DecidableEq κ] (k : κ) : List (κ × α) → Option α
  | [] => none
  | e :: l => if e.1 = k then some e.2 else lookupK k l

/-- `Map.set` / property assignment: update in place, else append. -/
def setK {κ α : Type} [DecidableEq κ] (k : κ) (v : α) : List (κ × α) → List (κ × α)
  | [] => [(k, v)]
  | e :: l => if e.1 = k then (k, v) :: l else e :: setK k v l

/-- `Map.delete` / `delete obj[k]`: remove the entry for `k`. -/
def delK {κ α : Type} [DecidableEq κ] (k : κ) : List (κ × α) → List (κ × α)
  | [] => []
  | e :: l => if e.1 = k then l else e :: delK k l

theorem lookupK_setK_self {κ α : Type} [DecidableEq κ] (k : κ) (v : α)
    (l : List (κ × α)) : lookupK k (setK k v l) = some v := by
  induction l with
  | nil => simp [setK, lookupK]
  | cons e l ih =>
    obtain ⟨a, b⟩ := e
    by_cases h : a = k
    · subst h
      simp [setK, lookupK]
    · simp [setK, lookupK, h, ih]

theorem lookupK_setK_ne {κ α : Type} [DecidableEq κ] {k k' : κ} (v : α)
    (l : List (κ × α)) (h : k' ≠ k) : lookupK k' (setK k v l) = lookupK k' l := by
  induction l with
  | nil => simp [setK, lookupK, Ne.symm h]
  | cons e l ih =>
    obtain ⟨a, b⟩ := e
    by_cases ha : a = k
    · subst ha
      simp [setK, lookupK, Ne.symm h]
    · by_cases ha' : a = k'
      · simp [setK, lookupK, ha, ha', h]
      · simp [setK, lookupK, ha, ha', ih]

theorem lookupK_delK_ne {κ α : Type} [DecidableEq κ] {k k' : κ}
    (l : List (κ × α)) (h : k' ≠ k) : lookupK k' (delK k l) = lookupK k' l := by
  induction l with
  | nil => simp [delK]
  | cons e l ih =>
    obtain ⟨a, b⟩ := e
    by_cases ha : a = k
    · subst ha
      simp [delK, lookupK, Ne.symm h]
    · by_cases ha' : a = k'
      · simp [delK, lookupK, ha, ha', h]
      · simp [delK, lookupK, ha, ha', ih]

theorem delK_sublist {κ α : Type} [DecidableEq κ] (k : κ) (l : List (κ × α)) :
    List.Sublist (delK k l) l := by
  induction l with
  | nil => simp [delK]
  | cons e l ih =>
    by_cases he : e.1 = k
    · simp [delK, he]
    · simpa [delK, he] using ih.cons₂ e

theorem lookupK_eq_none_iff {κ α : Type} [DecidableEq κ] (k : κ)
    (l : List (κ × α)) : lookupK k l = none ↔ ∀ e ∈ l, e.1 ≠ k := by
  induction l with
  | nil => simp [lookupK]
  | cons e l ih =>
    by_cases he : e.1 = k
    · simp [lookupK, he]
    · simp [lookupK, he, ih]

theorem lookupK_some_mem {κ α : Type} [DecidableEq κ] {k : κ} {v : α}
    {l : List (κ × α)} (h : lookupK k l = some v) : (k, v) ∈ l := by
  induction l with
  | nil => simp [lookupK] at h
  | cons e l ih =>
    by_cases he : e.1 = k
    · simp only [lookupK, he, if_true, Option.some.injEq] at h
      have : (k, v) = e := by
        obtain ⟨a, b⟩ := e
        simp only at he h
        rw [he, h]
      rw [this]
      exact List.mem_cons_self e l
    · simp only [lookupK, he, if_false] at h
      exact List.mem_cons_of_mem e (ih h)

theorem nodup_keys_delK {κ α : Type} [DecidableEq κ] (k : κ)
    {l : List (κ × α)} (h : (l.map Prod.fst).Nodup) :
    ((delK k l).map Prod.fst).Nodup :=
  h.sublist ((delK_sublist k l).map Prod.fst)

theorem lookupK_delK_self {κ α : Type} [DecidableEq κ] (k : κ)
    {l : List (κ × α)} (h : (l.map Prod.fst).Nodup) :
    lookupK k (delK k l) = none := by
  induction l with
  | nil => simp [delK, lookupK]
  | cons e l ih =>
    simp only [List.map_cons, List.nodup_cons] at h
    by_cases he : e.1 = k
    · simp only [delK, he, if_true]
      rw [lookupK_eq_none_iff]
      intro e' he' hk
      apply h.1
      rw [he, ← hk]
      exact List.mem_map_of_mem Prod.fst he'
    · simp [delK, he, lookupK, ih h.2]

/-- The key list after `setK`: unchanged when `k` was present, else `k` is
appended (JS in-place update versus append semantics). -/
theorem keys_setK {κ α : Type} [DecidableEq κ] (k : κ) (v : α)
    (l : List (κ × α)) :
    (setK k v l).map Prod.fst =
      if (lookupK k l).isSome then l.map Prod.fst else l.map Prod.fst ++ [k] := by
  induction l with
  | nil => simp [setK, lookupK]
  | cons e l ih =>
    obtain ⟨a, b⟩ := e
    by_cases ha : a = k
    · subst ha
      simp [setK, lookupK]
    · by_cases hl : (lookupK k l).isSome
      · simp [setK, lookupK, ha, hl, ih]
      · simp [setK, lookupK, ha, hl, ih]

theorem nodup_keys_setK {κ α : Type} [DecidableEq κ] (k : κ) (v : α)
    {l : List (κ × α)} (h : (l.map Prod.fst).Nodup) :
    ((setK k v l).map Prod.fst).Nodup := by
  rw [keys_setK]
  by_cases hl : (lookupK k l).isSome
  · simpa [hl] using h
  · rw [if_neg hl]
    rw [List.nodup_append]
    refine ⟨h, List.nodup_singleton k, ?_⟩
    intro a ha hk
    rcases List.mem_map.mp ha with ⟨e, he, hfst⟩
    have hak := List.mem_singleton.mp hk
    have hnone : lookupK k l = none := by
      cases hcase : lookupK k l with
      | none => rfl
      | some w => rw [hcase] at hl; simp at hl
    exact ((lookupK_eq_none_iff k l).mp hnone e he) (by rw [hfst, hak])

/-! ### Per-connection record access -/

/-- A connection as it is right after the `connection` event fires:
`myId = null`, `ws.isAlive = true` (line 84), socket open. -/
def freshConn : Conn := ⟨none, true, true⟩

/-- Read a connection record (fresh defaults if unknown; handlers are only
ever invoked for connections the server has seen). -/
def getConn (s : State) (c : Nat) : Conn := (lookupK c s.conns).getD freshConn

/-- Mutate one connection record in place. -/
def updateConn (s : State) (c : Nat) (f : Conn → Conn) : State :=
  { s with conns := setK c (f (getConn s c)) s.conns }

theorem getConn_updateConn_self (s : State) (c : Nat) (f : Conn → Conn) :
    getConn (updateConn s c f) c = f (getConn s c) := by
  simp [getConn, updateConn, lookupK_setK_self]

theorem getConn_updateConn_ne (s : State) {c c' : Nat} (f : Conn → Conn)
    (h : c' ≠ c) : getConn (updateConn s c f) c' = getConn s c' := by
  simp [getConn, updateConn, lookupK_setK_ne _ _ h]

theorem updateConn_file (s : State) (c : Nat) (f : Conn → Conn) :
    (updateConn s c f).file = s.file := rfl

theorem updateConn_sockets (s : State) (c : Nat) (f : Conn → Conn) :
    (updateConn s c f).sockets = s.sockets := rfl

/-! ### The server operations (`src/server.js`) -/

/-- `broadcastOnline()` (lines 71-78): re-read `online.json`, take
`Object.values(state.users)`, serialize the `{type:"online",users}` payload
once, and send it to every socket in the registry whose
`readyState === OPEN`.  The leading `Event.broadcast` marks the invocation
and carries the snapshot. -/
def broadcastOnline (s : State) : List Event :=
  let users := s.file.map Prod.snd
  Event.broadcast users ::
    s.sockets.filterMap fun e =>
      if (getConn s e.2).isOpen then some (Event.sent e.2 (WireMsg.online users))
      else none

/-- The `hello` branch of the message handler (lines 92-104).  It first
overwrites the connection's `myId` closure variable with `msg.me?.id`
(possibly clobbering an earlier binding), drops the message if that value
is falsy, and otherwise registers the socket, rewrites `online.json`
(`saveOk` tells whether `fs.writeFileSync` succeeds; on failure the
exception escapes the handler) and broadcasts. -/
def handleHello (saveOk : Bool) (s : State) (c : Nat) (me : Option Me) :
    StepOut :=
  match me with
  | none => ⟨updateConn s c (fun cn => { cn with myId := none }), [], false⟩
  | some m =>
    let s1 := updateConn s c (fun cn => { cn with myId := some m.id })
    if m.id = "" then ⟨s1, [], false⟩
    else
      let s2 := { s1 with sockets := setK m.id c s1.sockets }
      if saveOk then
        let s3 := { s2 with file := setK m.id ⟨m.id, m.name, m.avatar⟩ s2.file }
        ⟨s3, broadcastOnline s3, false⟩
      else ⟨s2, [], true⟩

/-- The `offer`/`answer`/`ice`/`end` branch (lines 106-111): look up
`msg.to` in `sockets`; if found and open, forward `JSON.stringify(msg)` to
that socket; otherwise do nothing. -/
def relaySends (s : State) (m : RelayMsg) : List Event :=
  match lookupK m.to_ s.sockets with
  | some c => if (getConn s c).isOpen then [Event.sent c (WireMsg.relay m)] else []
  | none => []

/-- The whole `ws.on("message")` handler (lines 87-117) for one parsed
message on connection `c`.  Unparseable input and unknown tags
(`InMsg.other`) are dropped. -/
def handleMessage (saveOk : Bool) (s : State) (c : Nat) : InMsg → StepOut
  | InMsg.hello me => handleHello saveOk s c me
  | InMsg.relay m => ⟨s, relaySends s m, false⟩
  | InMsg.pong =>
      ⟨updateConn s c (fun cn => { cn with isAlive := true }), [], false⟩
  | InMsg.other => ⟨s, [], false⟩

/-- The `ws.on("close")` handler (lines 119-127): if `myId` is truthy,
delete it from the registry and from `online.json`, then broadcast. -/
def handleClose (saveOk : Bool) (s : State) (c : Nat) : StepOut :=
  match (getConn s c).myId with
  | some id =>
    if id = "" then ⟨s, [], false⟩
    else
      let s1 := { s with sockets := delK id s.sockets }
      if saveOk then
        let s2 := { s1 with file := delK id s1.file }
        ⟨s2, broadcastOnline s2, false⟩
      else ⟨s1, [], true⟩
  | none => ⟨s, [], false⟩

/-- One entry of the heartbeat loop body (lines 133-142): a dead socket
(`ws.isAlive === false`) is terminated and its id deleted from both
collections; a live one has its flag cleared and is pinged.  An escaped
exception (failed `saveOnline` with `saveOk = false`) aborts the rest of
the loop. -/
def tickStep (saveOk : Bool) (acc : StepOut) (e : String × Nat) : StepOut :=
  if acc.exn then acc
  else if (getConn acc.st e.2).isAlive = false then
    let s1 := updateConn acc.st e.2 (fun cn => { cn with isOpen := false })
    let s2 := { s1 with sockets := delK e.1 s1.sockets }
    if saveOk then
      ⟨{ s2 with file := delK e.1 s2.file },
        acc.out ++ [Event.terminated e.2], false⟩
    else ⟨s2, acc.out ++ [Event.terminated e.2], true⟩
  else
    ⟨updateConn acc.st e.2 (fun cn => { cn with isAlive := false }),
      acc.out ++ [Event.pinged e.2], false⟩

/-- One `setInterval` heartbeat tick (lines 132-144): sweep all registry
entries, then call `broadcastOnline()` once (skipped only if an exception
escaped the sweep). -/
def heartbeatTick (saveOk : Bool) (s : State) : StepOut :=
  let r := s.sockets.foldl (tickStep saveOk) ⟨s, [], false⟩
  ⟨r.st, if r.exn then r.out else r.out ++ broadcastOnline r.st, r.exn⟩

/-- The `/online` HTTP route (lines 47-51):
`Object.values(loadOnline().users)`. -/
def onlineQuery (s : State) : List User := s.file.map Prod.snd

/-! ### The transition system -/

/-- An externally triggered action. -/
inductive Act where
  | connect (c : Nat)
  | message (c : Nat) (m : InMsg)
  | wsPong (c : Nat)
  | closeEvt (c : Nat)
  | tick
deriving DecidableEq

/-- Run one action, all durability writes succeeding.  `closeEvt` first
marks the socket closed (the transport closed it) and then runs the
`close` handler. -/
def doAct (s : State) : Act → StepOut
  | Act.connect c => ⟨{ s with conns := setK c freshConn s.conns }, [], false⟩
  | Act.message c m => handleMessage true s c m
  | Act.wsPong c =>
      ⟨updateConn s c (fun cn => { cn with isAlive := true }), [], false⟩
  | Act.closeEvt c =>
      handleClose true (updateConn s c (fun cn => { cn with isOpen := false })) c
  | Act.tick => heartbeatTick true s

/-- Whether an action can fire: connections get fresh numbers, message and
pong events arrive only on sockets the server has accepted, a close event
fires once per known connection, the timer always may fire. -/
def enabled (s : State) : Act → Bool
  | Act.connect c => (lookupK c s.conns).isNone
  | Act.message c _ =>
      match lookupK c s.conns with
      | some cn => cn.isOpen
      | none => false
  | Act.wsPong c => (lookupK c s.conns).isSome
  | Act.closeEvt c => (lookupK c s.conns).isSome
  | Act.tick => true

/-- `Steps s tr s'`: the action trace `tr` runs from `s` to `s'`. -/
inductive Steps : State → List Act → State → Prop
  | nil (s : State) : Steps s [] s
  | cons {s s' : State} {a : Act} {tr : List Act} :
      enabled s a = true → Steps (doAct s a).st tr s' → Steps s (a :: tr) s'

/-- Server start-up: `loadOnline()` seeds presence from `online.json`
(content `f0`); no sockets, no connections. -/
def init (f0 : List (String × User)) : State := ⟨f0, [], []⟩

/-- A state the server can be in, having started with `online.json`
content `f0`. -/
def Reachable (f0 : List (String × User)) (s : State) : Prop :=
  ∃ tr, Steps (init f0) tr s

/-- Recognizer for the `broadcastOnline()` invocation markers in an event
trace. -/
def isBroadcastEv : Event → Bool
  | Event.broadcast _ => true
  | _ => false

/-- Whether an action is a `hello` registering identifier `x`. -/
def helloFor (x : String) : Act → Bool
  | Act.message _ (InMsg.hello (some m)) => m.id == x
  | _ => false

/-- The combined store invariant: presence ids and registry ids coincide,
and both maps have duplicate-free keys. -/
def InvEq (s : State) : Prop :=
  (∀ id, (lookupK id s.file).isSome = (lookupK id s.sockets).isSome) ∧
  (s.sockets.map Prod.fst).Nodup ∧ (s.file.map Prod.fst).Nodup

/-- Identifier `x` is a file-only presence entry with value `u`: present in
`online.json`, absent from the registry, and bound by no connection. -/
def Untouched (x : String) (u : User) (s : State) : Prop :=
  lookupK x s.file = some u ∧ lookupK x s.sockets = none ∧
  ∀ c cn, lookupK c s.conns = some cn → cn.myId ≠ some x

/-! ### Concrete states used by witnesses and counterexamples -/

/-- Alice's presence entry. -/
def uA : User := ⟨"a1", "Alice", "x"⟩

/-- A state with one open, live connection `0` bound to `"a1"`. -/
def sA : State := ⟨[("a1", uA)], [("a1", 0)], [(0, ⟨some "a1", true, true⟩)]⟩

/-- A state whose only connection `0` (bound to `"a1"`) has missed the
previous heartbeat probe (`isAlive = false`). -/
def sDead : State := ⟨[("a1", uA)], [("a1", 0)], [(0, ⟨some "a1", false, true⟩)]⟩

/-- A state after connection `1` re-registered `"a1"`, superseding the
still-open connection `0` which also has `myId = "a1"`. -/
def sDup : State :=
  ⟨[("a1", ⟨"a1", "Alice2", "z"⟩)], [("a1", 1)],
    [(0, ⟨some "a1", true, true⟩), (1, ⟨some "a1", true, true⟩)]⟩

/-- A state with a single freshly accepted, never-bound connection `0`. -/
def sFresh : State := ⟨[], [], [(0, freshConn)]⟩

/-- An `online.json` content pre-seeding one user at startup. -/
def fpre : List (String × User) := [("u", ⟨"u", "Norbert", "av"⟩)]

/-! ### Further association-list facts -/

theorem lookupK_delK_none {κ α : Type} [DecidableEq κ] {k k' : κ}
    {l : List (κ × α)} (h : lookupK k' l = none) :
    lookupK k' (delK k l) = none := by
  rw [lookupK_eq_none_iff] at h ⊢
  exact fun e he => h e ((delK_sublist k l).mem he)

theorem lookupK_split {κ α : Type} [DecidableEq κ] {k : κ} {v : α}
    {l : List (κ × α)} (h : lookupK k l = some v) :
    ∃ l1 l2, l = l1 ++ (k, v) :: l2 ∧ ∀ e ∈ l1, e.1 ≠ k := by
  induction l with
  | nil => simp [lookupK] at h
  | cons e l ih =>
    by_cases he : e.1 = k
    · simp only [lookupK, he, if_true, Option.some.injEq] at h
      refine ⟨[], l, ?_, by simp⟩
      obtain ⟨a, b⟩ := e
      simp only at he h
      simp [he, h]
    · simp only [lookupK, he, if_false] at h
      rcases ih h with ⟨l1, l2, hl, hne⟩
      refine ⟨e :: l1, l2, by rw [hl]; rfl, ?_⟩
      intro e' he'
      rcases List.mem_cons.mp he' with rfl | he'
      · exact he
      · exact hne e' he'

/-! ### Facts about `broadcastOnline` -/

/-- Decomposition of a broadcast trace: the invocation marker, then the
payload sends, all carrying the same single serialization of the fresh
snapshot. -/
theorem broadcastOnline_eq (s : State) :
    broadcastOnline s = Event.broadcast (onlineQuery s) ::
      (s.sockets.filterMap fun e =>
        if (getConn s e.2).isOpen then
          some (Event.sent e.2 (WireMsg.online (onlineQuery s)))
        else none) := rfl

theorem mem_broadcastOnline {s : State} {e : Event}
    (h : e ∈ broadcastOnline s) :
    e = Event.broadcast (onlineQuery s) ∨
      ∃ en ∈ s.sockets, (getConn s en.2).isOpen = true ∧
        e = Event.sent en.2 (WireMsg.online (onlineQuery s)) := by
  rw [broadcastOnline_eq] at h
  rcases List.mem_cons.mp h with rfl | h
  · exact Or.inl rfl
  · right
    rcases List.mem_filterMap.mp h with ⟨en, hen, hf⟩
    by_cases ho : (getConn s en.2).isOpen
    · simp only [ho, if_true, Option.some.injEq] at hf
      exact ⟨en, hen, ho, hf.symm⟩
    · simp [ho] at hf

theorem sent_mem_broadcastOnline {s : State} {id : String} {c : Nat}
    (hmem : (id, c) ∈ s.sockets) (ho : (getConn s c).isOpen = true) :
    Event.sent c (WireMsg.online (onlineQuery s)) ∈ broadcastOnline s := by
  rw [broadcastOnline_eq]
  refine List.mem_cons_of_mem _ (List.mem_filterMap.mpr ⟨(id, c), hmem, ?_⟩)
  simp [ho]

theorem broadcast_users_eq {s : State} {us : List User}
    (h : Event.broadcast us ∈ broadcastOnline s) : us = onlineQuery s := by
  rcases mem_broadcastOnline h with he | ⟨en, _, _, he⟩
  · cases he
    rfl
  · cases he

theorem broadcastOnline_countB (s : State) :
    (broadcastOnline s).countP isBroadcastEv = 1 := by
  rw [broadcastOnline_eq, List.countP_cons]
  have h0 : (s.sockets.filterMap fun e =>
      if (getConn s e.2).isOpen then
        some (Event.sent e.2 (WireMsg.online (onlineQuery s)))
      else none).countP isBroadcastEv = 0 := by
    rw [List.countP_eq_zero]
    intro ev hev
    rcases List.mem_filterMap.mp hev with ⟨en, _, hf⟩
    by_cases ho : (getConn s en.2).isOpen
    · simp only [ho, if_true, Option.some.injEq] at hf
      rw [← hf]
      simp [isBroadcastEv]
    · simp [ho] at hf
  simp [h0, isBroadcastEv]

/-! ### Claim theorems -/

/-- Claim C2: a routed `offer`/`answer`/`ice`/`end` message whose `to`
names a registered identifier with an open socket is forwarded unchanged
to exactly that socket; one whose `to` is unregistered produces no sends;
in both cases the state is untouched and no error is raised. -/
theorem c2_relay_routing (s : State) (c : Nat) (m : RelayMsg) :
    (handleMessage true s c (InMsg.relay m)).st = s ∧
    (handleMessage true s c (InMsg.relay m)).exn = false ∧
    (∀ c', lookupK m.to_ s.sockets = some c' → (getConn s c').isOpen = true →
      (handleMessage true s c (InMsg.relay m)).out =
        [Event.sent c' (WireMsg.relay m)]) ∧
    (lookupK m.to_ s.sockets = none →
      (handleMessage true s c (InMsg.relay m)).out = []) := by
  refine ⟨rfl, rfl, ?_, ?_⟩
  · intro c' hc' ho
    simp [handleMessage, relaySends, hc', ho]
  · intro hnone
    simp [handleMessage, relaySends, hnone]

/-- Witness for C2 at `sA`: the offer addressed to `"a1"` reaches
connection `0` only; the one addressed to `"zz"` reaches nobody. -/
theorem c2_relay_routing_witness :
    (handleMessage true sA 7 (InMsg.relay ⟨RType.offer, "a1", [("sdp", "v")]⟩)).out =
      [Event.sent 0 (WireMsg.relay ⟨RType.offer, "a1", [("sdp", "v")]⟩)] ∧
    (handleMessage true sA 7 (InMsg.relay ⟨RType.ice, "zz", []⟩)).out = [] :=
  ⟨(c2_relay_routing sA 7 ⟨RType.offer, "a1", [("sdp", "v")]⟩).2.2.1 0
      (by decide) (by decide),
    (c2_relay_routing sA 7 ⟨RType.ice, "zz", []⟩).2.2.2 (by decide)⟩

/-- Claim C7: `broadcastOnline` snapshots presence once and sends that one
identical payload to every open registered socket; sockets that are not
open are skipped without aborting the rest of the broadcast. -/
theorem c7_broadcast (s : State) :
    (∀ id c, (id, c) ∈ s.sockets → (getConn s c).isOpen = true →
      Event.sent c (WireMsg.online (onlineQuery s)) ∈ broadcastOnline s) ∧
    (∀ e ∈ broadcastOnline s, e = Event.broadcast (onlineQuery s) ∨
      ∃ c, (∃ id, (id, c) ∈ s.sockets) ∧ (getConn s c).isOpen = true ∧
        e = Event.sent c (WireMsg.online (onlineQuery s))) ∧
    (∀ c, (getConn s c).isOpen = false →
      ∀ m, Event.sent c m ∉ broadcastOnline s) := by
  refine ⟨?_, ?_, ?_⟩
  · intro id c hmem ho
    exact sent_mem_broadcastOnline hmem ho
  · intro e he
    rcases mem_broadcastOnline he with he' | ⟨en, hen, ho, he'⟩
    · exact Or.inl he'
    · exact Or.inr ⟨en.2, ⟨en.1, hen⟩, ho, he'⟩
  · intro c hc m hmem
    rcases mem_broadcastOnline hmem with he' | ⟨en, _, ho, he'⟩
    · cases he'
    · cases he'
      rw [hc] at ho
      cases ho

/-- Witness for C7 at `sDup`: the open registered socket `1` receives the
snapshot payload; the unregistered socket `5` (closed by default) gets
nothing. -/
theorem c7_broadcast_witness :
    Event.sent 1 (WireMsg.online (onlineQuery sDup)) ∈ broadcastOnline sDup :=
  (c7_broadcast sDup).1 "a1" 1 (by decide) (by decide)

/-- Claim C4: closing a connection bound to `x` removes `x` from both the
registry and the presence file and issues exactly one broadcast whose user
list excludes `x`; closing a never-bound connection changes nothing. -/
theorem c4_close_cleanup (s : State) (c : Nat) :
    (∀ x, (getConn s c).myId = some x → x ≠ "" →
      (s.sockets.map Prod.fst).Nodup → (s.file.map Prod.fst).Nodup →
      (∀ e ∈ s.file, (Prod.snd e).id = Prod.fst e) →
      lookupK x (handleClose true s c).st.sockets = none ∧
      lookupK x (handleClose true s c).st.file = none ∧
      (handleClose true s c).exn = false ∧
      (handleClose true s c).out.countP isBroadcastEv = 1 ∧
      ∀ us, Event.broadcast us ∈ (handleClose true s c).out →
        ∀ u ∈ us, u.id ≠ x) ∧
    ((getConn s c).myId = none → handleClose true s c = ⟨s, [], false⟩) := by
  constructor
  · intro x hmy hx hns hnf hwf
    have hred : handleClose true s c =
        ⟨⟨delK x s.file, delK x s.sockets, s.conns⟩,
          broadcastOnline ⟨delK x s.file, delK x s.sockets, s.conns⟩,
          false⟩ := by
      unfold handleClose
      rw [hmy]
      simp [hx]
    rw [hred]
    refine ⟨lookupK_delK_self x hns, lookupK_delK_self x hnf, rfl,
      broadcastOnline_countB _, ?_⟩
    intro us hus u hu
    have husq : us = onlineQuery ⟨delK x s.file, delK x s.sockets, s.conns⟩ :=
      broadcast_users_eq hus
    rw [husq] at hu
    rcases List.mem_map.mp hu with ⟨e, he, hsnd⟩
    have hmemf : e ∈ s.file := (delK_sublist x s.file).mem he
    have hkey : e.1 ≠ x := by
      have hnone : lookupK x (delK x s.file) = none := lookupK_delK_self x hnf
      exact (lookupK_eq_none_iff x (delK x s.file)).mp hnone e he
    rw [← hsnd, hwf e hmemf]
    exact hkey
  · intro hmy
    unfold handleClose
    rw [hmy]

/-- Witness for C4 at `sA`: closing connection `0` leaves `"a1"` in
neither store, and `handleClose` on the never-bound `sFresh` connection
changes nothing. -/
theorem c4_close_cleanup_witness :
    lookupK "a1" (handleClose true sA 0).st.sockets = none ∧
    handleClose true sFresh 0 = ⟨sFresh, [], false⟩ :=
  ⟨((c4_close_cleanup sA 0).1 "a1" (by decide) (by decide) (by decide)
      (by decide) (by decide)).1,
    (c4_close_cleanup sFresh 0).2 (by decide)⟩

/-- Claim C5: a second `hello` for an identifier `x` already bound to a
different connection overwrites both the registry mapping and the presence
entry with the new connection's data, leaving exactly one entry for `x` in
each store. -/
theorem c5_hello_overwrite (s : State) (c1 c2 : Nat) (x n av : String)
    (hx : x ≠ "") (hne : c2 ≠ c1) (hreg : lookupK x s.sockets = some c1)
    (hns : (s.sockets.map Prod.fst).Nodup)
    (hnf : (s.file.map Prod.fst).Nodup) :
    lookupK x
      (handleMessage true s c2 (InMsg.hello (some ⟨x, n, av⟩))).st.sockets =
        some c2 ∧
    lookupK x
      (handleMessage true s c2 (InMsg.hello (some ⟨x, n, av⟩))).st.file =
        some ⟨x, n, av⟩ ∧
    ((handleMessage true s c2
        (InMsg.hello (some ⟨x, n, av⟩))).st.sockets.map Prod.fst).count x = 1 ∧
    ((handleMessage true s c2
        (InMsg.hello (some ⟨x, n, av⟩))).st.file.map Prod.fst).count x = 1 := by
  have hred : (handleMessage true s c2 (InMsg.hello (some ⟨x, n, av⟩))).st =
      ⟨setK x ⟨x, n, av⟩ s.file, setK x c2 s.sockets,
        setK c2 { getConn s c2 with myId := some x } s.conns⟩ := by
    simp only [handleMessage, handleHello]
    simp [hx, updateConn, getConn]
  rw [hred]
  have hcnt : ∀ {α : Type} [inst : DecidableEq α] (l : List (String × α))
      (v : α), (l.map Prod.fst).Nodup →
      ((setK x v l).map Prod.fst).count x = 1 := by
    intro α inst l v hnd
    have hnd' := nodup_keys_setK x v hnd
    have hmem : x ∈ (setK x v l).map Prod.fst :=
      List.mem_map_of_mem Prod.fst (lookupK_some_mem (lookupK_setK_self x v l))
    exact List.count_eq_one_of_mem hnd' hmem
  exact ⟨lookupK_setK_self x c2 s.sockets, lookupK_setK_self x ⟨x, n, av⟩ s.file,
    hcnt s.sockets c2 hns, hcnt s.file ⟨x, n, av⟩ hnf⟩

/-- Witness for C5: connection `1` re-registers `"a1"` over the binding of
connection `0` in `sA`. -/
theorem c5_hello_overwrite_witness :
    lookupK "a1"
      (handleMessage true sA 1
        (InMsg.hello (some ⟨"a1", "Ann", "y"⟩))).st.sockets = some 1 ∧
    lookupK "a1"
      (handleMessage true sA 1
        (InMsg.hello (some ⟨"a1", "Ann", "y"⟩))).st.file =
      some ⟨"a1", "Ann", "y"⟩ := by
  have h := c5_hello_overwrite sA 0 1 "a1" "Ann" "y" (by decide) (by decide)
    (by decide) (by decide) (by decide)
  exact ⟨h.1, h.2.1⟩

/-- Counterexample to claim C6 as stated: a `hello` without a `me` object
does change system state on a bound connection, because line 94 assigns
`myId = msg.me?.id` before the falsy check, clobbering the binding. -/
theorem c6_counterexample :
    (handleMessage true sA 0 (InMsg.hello none)).st ≠ sA := by decide

/-- Claim C6 (amended): a `hello` whose id is missing or empty is dropped
with no registry, presence, output or error effect, but the connection's
`myId` binding is overwritten with the falsy value, so a previously bound
connection loses its binding. -/
theorem c6_amended (s : State) (c : Nat) (me : Option Me)
    (hbad : me.map Me.id = none ∨ me.map Me.id = some "") :
    (handleMessage true s c (InMsg.hello me)).st.sockets = s.sockets ∧
    (handleMessage true s c (InMsg.hello me)).st.file = s.file ∧
    (handleMessage true s c (InMsg.hello me)).out = [] ∧
    (handleMessage true s c (InMsg.hello me)).exn = false ∧
    (getConn (handleMessage true s c (InMsg.hello me)).st c).myId =
      me.map Me.id := by
  cases me with
  | none =>
    refine ⟨rfl, rfl, rfl, rfl, ?_⟩
    simp only [handleMessage, handleHello]
    rw [getConn_updateConn_self]
    simp
  | some m =>
    have hid : m.id = "" := by
      rcases hbad with hb | hb
      · cases hb
      · simpa using hb
    refine ⟨?_, ?_, ?_, ?_, ?_⟩ <;>
      simp only [handleMessage, handleHello, hid, if_true, Option.map_some] <;>
      first
        | rfl
        | (rw [getConn_updateConn_self]; simp [hid])

/-- Witness for C6 (amended) at `sA`: the bad `hello` leaves both stores
alone but resets connection `0`'s binding to `none`. -/
theorem c6_amended_witness :
    (handleMessage true sA 0 (InMsg.hello none)).st.sockets = sA.sockets ∧
    (getConn (handleMessage true sA 0 (InMsg.hello none)).st 0).myId = none :=
  ⟨(c6_amended sA 0 none (Or.inl rfl)).1,
    (c6_amended sA 0 none (Or.inl rfl)).2.2.2.2⟩

/-- Claim C8 evaluated at its failing input: when the `online.json` write
throws during a fresh `hello`, the exception escapes the message handler
(`exn = true`), the presence file transition is lost and the broadcast is
skipped, while the registry mutation `sockets.set(myId, ws)` made before
the write persists — the durability failure aborts the operation instead
of being a best-effort side effect. -/
theorem c8_save_failure_aborts :
    (handleMessage false sFresh 0
      (InMsg.hello (some ⟨"a1", "Alice", "x"⟩))).exn = true ∧
    (handleMessage false sFresh 0
      (InMsg.hello (some ⟨"a1", "Alice", "x"⟩))).st.file = sFresh.file ∧
    lookupK "a1" (handleMessage false sFresh 0
      (InMsg.hello (some ⟨"a1", "Alice", "x"⟩))).st.sockets = some 0 ∧
    (handleMessage false sFresh 0
      (InMsg.hello (some ⟨"a1", "Alice", "x"⟩))).out = [] := by decide

/-- Claim C9: when the registry entry for `x` has been overwritten by a
newer connection, the close of the superseded old connection still deletes
`x` from both stores, dropping the newer connection's registration while
that connection stays open and untouched. -/
theorem c9_stale_close_removes_new (s : State) (cOld cNew : Nat) (x : String)
    (hmy : (getConn s cOld).myId = some x) (hx : x ≠ "")
    (hreg : lookupK x s.sockets = some cNew) (hneq : cNew ≠ cOld)
    (hopen : (getConn s cNew).isOpen = true)
    (hns : (s.sockets.map Prod.fst).Nodup)
    (hnf : (s.file.map Prod.fst).Nodup) :
    lookupK x (handleClose true s cOld).st.sockets = none ∧
    lookupK x (handleClose true s cOld).st.file = none ∧
    (getConn (handleClose true s cOld).st cNew).isOpen = true := by
  have hred : (handleClose true s cOld).st =
      ⟨delK x s.file, delK x s.sockets, s.conns⟩ := by
    unfold handleClose
    rw [hmy]
    simp [hx]
  rw [hred]
  exact ⟨lookupK_delK_self x hns, lookupK_delK_self x hnf, by
    have : getConn ⟨delK x s.file, delK x s.sockets, s.conns⟩ cNew =
        getConn s cNew := rfl
    rw [this, hopen]⟩

/-- Witness for C9 at `sDup`: connection `0`'s close deletes the entry
that now belongs to the still-open connection `1`. -/
theorem c9_stale_close_removes_new_witness :
    lookupK "a1" (handleClose true sDup 0).st.sockets = none ∧
    (getConn (handleClose true sDup 0).st 1).isOpen = true := by
  have h := c9_stale_close_removes_new sDup 0 1 "a1" (by decide) (by decide)
    (by decide) (by decide) (by decide) (by decide) (by decide)
  exact ⟨h.1, h.2.2⟩

/-! ### Facts about the heartbeat sweep -/

theorem getConn_mk_setK (f : List (String × User)) (sk : List (String × Nat))
    (cns : List (Nat × Conn)) (c c' : Nat) (v : Conn) :
    getConn ⟨f, sk, setK c v cns⟩ c' =
      if c' = c then v else getConn ⟨f, sk, cns⟩ c' := by
  by_cases h : c' = c
  · subst h
    simp [getConn, lookupK_setK_self]
  · simp [getConn, h, lookupK_setK_ne _ _ h]

theorem tickStep_of_exn (saveOk : Bool) (acc : StepOut) (e : String × Nat)
    (h : acc.exn = true) : tickStep saveOk acc e = acc := by
  simp [tickStep, h]

/-- `tickStep true` on a non-failed accumulator: either the eviction branch
(entry's socket dead) or the probe branch (socket alive). -/
theorem tickStep_eq (acc : StepOut) (e : String × Nat) (h : acc.exn = false) :
    (getConn acc.st e.2).isAlive = false ∧ tickStep true acc e =
        ⟨⟨delK e.1 acc.st.file, delK e.1 acc.st.sockets,
          setK e.2 { getConn acc.st e.2 with isOpen := false } acc.st.conns⟩,
          acc.out ++ [Event.terminated e.2], false⟩ ∨
      (getConn acc.st e.2).isAlive = true ∧ tickStep true acc e =
        ⟨⟨acc.st.file, acc.st.sockets,
          setK e.2 { getConn acc.st e.2 with isAlive := false } acc.st.conns⟩,
          acc.out ++ [Event.pinged e.2], false⟩ := by
  cases ha : (getConn acc.st e.2).isAlive with
  | false =>
    left
    refine ⟨rfl, ?_⟩
    simp [tickStep, h, ha, updateConn]
  | true =>
    right
    refine ⟨rfl, ?_⟩
    simp [tickStep, h, ha, updateConn]

theorem tickFold_exn : ∀ (l : List (String × Nat)) (acc : StepOut),
    acc.exn = false → (l.foldl (tickStep true) acc).exn = false := by
  intro l
  induction l with
  | nil => intro acc h; simpa using h
  | cons e l ih =>
    intro acc h
    rw [List.foldl_cons]
    rcases tickStep_eq acc e h with ⟨_, hq⟩ | ⟨_, hq⟩ <;> rw [hq] <;>
      exact ih _ rfl

theorem tickFold_lookup_pres : ∀ (l : List (String × Nat)) (acc : StepOut)
    (id : String), (∀ e ∈ l, e.1 ≠ id) →
    lookupK id (l.foldl (tickStep true) acc).st.sockets
        = lookupK id acc.st.sockets ∧
    lookupK id (l.foldl (tickStep true) acc).st.file
        = lookupK id acc.st.file := by
  intro l
  induction l with
  | nil => intro acc id _; exact ⟨rfl, rfl⟩
  | cons e l ih =>
    intro acc id hne
    rw [List.foldl_cons]
    have hrest : ∀ e' ∈ l, e'.1 ≠ id := fun e' he' =>
      hne e' (List.mem_cons_of_mem e he')
    have hhd : e.1 ≠ id := hne e (List.mem_cons_self e l)
    cases hexn : acc.exn with
    | true =>
      rw [tickStep_of_exn true acc e hexn]
      exact ih acc id hrest
    | false =>
      rcases tickStep_eq acc e hexn with ⟨_, hq⟩ | ⟨_, hq⟩ <;> rw [hq] <;>
        rcases ih _ id hrest with ⟨h1, h2⟩ <;> rw [h1, h2]
      · exact ⟨lookupK_delK_ne _ (Ne.symm hhd),
          lookupK_delK_ne _ (Ne.symm hhd)⟩
      · exact ⟨rfl, rfl⟩

theorem tickFold_sockets_none : ∀ (l : List (String × Nat)) (acc : StepOut)
    (id : String), lookupK id acc.st.sockets = none →
    lookupK id (l.foldl (tickStep true) acc).st.sockets = none := by
  intro l
  induction l with
  | nil => intro acc id h; simpa using h
  | cons e l ih =>
    intro acc id h
    rw [List.foldl_cons]
    cases hexn : acc.exn with
    | true =>
      rw [tickStep_of_exn true acc e hexn]
      exact ih acc id h
    | false =>
      rcases tickStep_eq acc e hexn with ⟨_, hq⟩ | ⟨_, hq⟩ <;> rw [hq] <;>
        apply ih
      · exact lookupK_delK_none h
      · exact h

theorem tickFold_file_none : ∀ (l : List (String × Nat)) (acc : StepOut)
    (id : String), lookupK id acc.st.file = none →
    lookupK id (l.foldl (tickStep true) acc).st.file = none := by
  intro l
  induction l with
  | nil => intro acc id h; simpa using h
  | cons e l ih =>
    intro acc id h
    rw [List.foldl_cons]
    cases hexn : acc.exn with
    | true =>
      rw [tickStep_of_exn true acc e hexn]
      exact ih acc id h
    | false =>
      rcases tickStep_eq acc e hexn with ⟨_, hq⟩ | ⟨_, hq⟩ <;> rw [hq] <;>
        apply ih
      · exact lookupK_delK_none h
      · exact h

theorem tickFold_alive_false : ∀ (l : List (String × Nat)) (acc : StepOut)
    (c : Nat), (getConn acc.st c).isAlive = false →
    (getConn (l.foldl (tickStep true) acc).st c).isAlive = false := by
  intro l
  induction l with
  | nil => intro acc c h; simpa using h
  | cons e l ih =>
    intro acc c h
    rw [List.foldl_cons]
    cases hexn : acc.exn with
    | true =>
      rw [tickStep_of_exn true acc e hexn]
      exact ih acc c h
    | false =>
      rcases tickStep_eq acc e hexn with ⟨hdead, hq⟩ | ⟨halive, hq⟩ <;>
        rw [hq] <;> apply ih <;> rw [getConn_mk_setK] <;>
        by_cases hc : c = e.2
      · rw [if_pos hc]
        rw [hc] at h
        simpa using h
      · rw [if_neg hc]
        exact h
      · rw [if_pos hc]
      · rw [if_neg hc]
        exact h

theorem tickFold_open_false : ∀ (l : List (String × Nat)) (acc : StepOut)
    (c : Nat), (getConn acc.st c).isOpen = false →
    (getConn (l.foldl (tickStep true) acc).st c).isOpen = false := by
  intro l
  induction l with
  | nil => intro acc c h; simpa using h
  | cons e l ih =>
    intro acc c h
    rw [List.foldl_cons]
    cases hexn : acc.exn with
    | true =>
      rw [tickStep_of_exn true acc e hexn]
      exact ih acc c h
    | false =>
      rcases tickStep_eq acc e hexn with ⟨hdead, hq⟩ | ⟨halive, hq⟩ <;>
        rw [hq] <;> apply ih <;> rw [getConn_mk_setK] <;>
        by_cases hc : c = e.2
      · rw [if_pos hc]
      · rw [if_neg hc]
        exact h
      · rw [if_pos hc]
        rw [hc] at h
        simpa using h
      · rw [if_neg hc]
        exact h

theorem tickFold_nodup : ∀ (l : List (String × Nat)) (acc : StepOut),
    (acc.st.sockets.map Prod.fst).Nodup → (acc.st.file.map Prod.fst).Nodup →
    ((l.foldl (tickStep true) acc).st.sockets.map Prod.fst).Nodup ∧
    ((l.foldl (tickStep true) acc).st.file.map Prod.fst).Nodup := by
  intro l
  induction l with
  | nil => intro acc h1 h2; exact ⟨h1, h2⟩
  | cons e l ih =>
    intro acc h1 h2
    rw [List.foldl_cons]
    cases hexn : acc.exn with
    | true =>
      rw [tickStep_of_exn true acc e hexn]
      exact ih acc h1 h2
    | false =>
      rcases tickStep_eq acc e hexn with ⟨_, hq⟩ | ⟨_, hq⟩ <;> rw [hq] <;>
        apply ih
      · exact nodup_keys_delK e.1 h1
      · exact nodup_keys_delK e.1 h2
      · exact h1
      · exact h2

theorem heartbeatTick_st (saveOk : Bool) (s : State) :
    (heartbeatTick saveOk s).st
      = (s.sockets.foldl (tickStep saveOk) ⟨s, [], false⟩).st := rfl

theorem heartbeatTick_out (s : State) :
    (heartbeatTick true s).out
      = (s.sockets.foldl (tickStep true) ⟨s, [], false⟩).out
        ++ broadcastOnline
            (s.sockets.foldl (tickStep true) ⟨s, [], false⟩).st := by
  have hexn := tickFold_exn s.sockets ⟨s, [], false⟩ rfl
  simp [heartbeatTick, hexn]

theorem heartbeatTick_none {s : State} {id : String}
    (h : lookupK id s.sockets = none) :
    lookupK id (heartbeatTick true s).st.sockets = none := by
  rw [heartbeatTick_st]
  exact tickFold_sockets_none s.sockets ⟨s, [], false⟩ id h

theorem heartbeatTick_nodup {s : State}
    (h1 : (s.sockets.map Prod.fst).Nodup)
    (h2 : (s.file.map Prod.fst).Nodup) :
    ((heartbeatTick true s).st.sockets.map Prod.fst).Nodup ∧
    ((heartbeatTick true s).st.file.map Prod.fst).Nodup := by
  rw [heartbeatTick_st]
  exact tickFold_nodup s.sockets ⟨s, [], false⟩ h1 h2

/-- Core of the sweeper's eviction: an entry whose socket already has
`isAlive = false` when the tick starts is removed from both stores and its
socket is terminated. -/
theorem tick_evicts {s : State} {id : String} {c : Nat}
    (hns : (s.sockets.map Prod.fst).Nodup)
    (hnf : (s.file.map Prod.fst).Nodup)
    (hlk : lookupK id s.sockets = some c)
    (hdead : (getConn s c).isAlive = false) :
    lookupK id (heartbeatTick true s).st.sockets = none ∧
    lookupK id (heartbeatTick true s).st.file = none ∧
    (getConn (heartbeatTick true s).st c).isOpen = false := by
  rcases lookupK_split hlk with ⟨l1, l2, hsplit, hne1⟩
  have hfold : s.sockets.foldl (tickStep true) ⟨s, [], false⟩
      = l2.foldl (tickStep true)
          (tickStep true (l1.foldl (tickStep true) ⟨s, [], false⟩) (id, c)) := by
    rw [hsplit, List.foldl_append, List.foldl_cons]
  have hexn1 : (l1.foldl (tickStep true) ⟨s, [], false⟩).exn = false :=
    tickFold_exn l1 ⟨s, [], false⟩ rfl
  have halive1 :
      (getConn (l1.foldl (tickStep true) ⟨s, [], false⟩).st c).isAlive
        = false :=
    tickFold_alive_false l1 ⟨s, [], false⟩ c hdead
  have hnd1 := tickFold_nodup l1 ⟨s, [], false⟩ hns hnf
  rcases tickStep_eq (l1.foldl (tickStep true) ⟨s, [], false⟩) (id, c) hexn1
    with ⟨_, hq⟩ | ⟨hal, hq⟩
  · have hs2 : lookupK id
        (tickStep true (l1.foldl (tickStep true) ⟨s, [], false⟩)
          (id, c)).st.sockets = none := by
      rw [hq]
      exact lookupK_delK_self id hnd1.1
    have hs3 : lookupK id
        (tickStep true (l1.foldl (tickStep true) ⟨s, [], false⟩)
          (id, c)).st.file = none := by
      rw [hq]
      exact lookupK_delK_self id hnd1.2
    have hs4 : (getConn
        (tickStep true (l1.foldl (tickStep true) ⟨s, [], false⟩)
          (id, c)).st c).isOpen = false := by
      rw [hq, getConn_mk_setK, if_pos rfl]
    rw [heartbeatTick_st, hfold]
    exact ⟨tickFold_sockets_none l2 _ id hs2, tickFold_file_none l2 _ id hs3,
      tickFold_open_false l2 _ c hs4⟩
  · rw [halive1] at hal
    exact Bool.noConfusion hal

/-- Core of the sweeper's probing: a registered, live connection ends the
tick with its flag cleared and a ping in the trace, whatever else the
sweep does (including its possible eviction through a second registry
entry for the same socket). -/
theorem tickFold_ping (c : Nat) : ∀ (l : List (String × Nat))
    (acc : StepOut), acc.exn = false →
    ((∃ e ∈ l, e.2 = c) ∧ (getConn acc.st c).isAlive = true ∨
      (getConn acc.st c).isAlive = false ∧ Event.pinged c ∈ acc.out) →
    (getConn (l.foldl (tickStep true) acc).st c).isAlive = false ∧
      Event.pinged c ∈ (l.foldl (tickStep true) acc).out := by
  intro l
  induction l with
  | nil =>
    intro acc _ hd
    rcases hd with ⟨⟨e, he, _⟩, _⟩ | ⟨h1, h2⟩
    · simp at he
    · exact ⟨h1, h2⟩
  | cons e l ih =>
    intro acc hexn hd
    rw [List.foldl_cons]
    by_cases hc : e.2 = c
    · rcases hd with ⟨⟨e', he', hc'⟩, halive⟩ | ⟨hfalse, hmem⟩
      · rcases tickStep_eq acc e hexn with ⟨hdead, hq⟩ | ⟨_, hq⟩
        · rw [hc, halive] at hdead
          exact Bool.noConfusion hdead
        · refine ih _ (by rw [hq]) (Or.inr ⟨?_, ?_⟩)
          · rw [hq, getConn_mk_setK, if_pos hc.symm]
          · rw [hq]
            apply List.mem_append_right
            rw [hc]
            exact List.mem_singleton_self _
      · rcases tickStep_eq acc e hexn with ⟨_, hq⟩ | ⟨hal, hq⟩
        · refine ih _ (by rw [hq]) (Or.inr ⟨?_, ?_⟩)
          · rw [hq, getConn_mk_setK, if_pos hc.symm]
            show (getConn acc.st e.2).isAlive = false
            rw [hc]
            exact hfalse
          · rw [hq]
            exact List.mem_append_left _ hmem
        · rw [hc, hfalse] at hal
          exact Bool.noConfusion hal
    · rcases hd with ⟨⟨e', he', hc'⟩, halive⟩ | ⟨hfalse, hmem⟩
      · have he'l : e' ∈ l := by
          rcases List.mem_cons.mp he' with rfl | h
          · exact absurd hc' hc
          · exact h
        rcases tickStep_eq acc e hexn with ⟨_, hq⟩ | ⟨_, hq⟩ <;>
          refine ih _ (by rw [hq]) (Or.inl ⟨⟨e', he'l, hc'⟩, ?_⟩) <;>
          rw [hq, getConn_mk_setK, if_neg (fun hh => hc hh.symm)] <;>
          exact halive
      · rcases tickStep_eq acc e hexn with ⟨_, hq⟩ | ⟨_, hq⟩ <;>
          refine ih _ (by rw [hq]) (Or.inr ⟨?_, ?_⟩) <;>
          first
            | (rw [hq, getConn_mk_setK, if_neg (fun hh => hc hh.symm)]
               exact hfalse)
            | (rw [hq]
               exact List.mem_append_left _ hmem)

theorem tickFold_countB : ∀ (l : List (String × Nat)) (acc : StepOut),
    (l.foldl (tickStep true) acc).out.countP isBroadcastEv
      = acc.out.countP isBroadcastEv := by
  intro l
  induction l with
  | nil => intro acc; rfl
  | cons e l ih =>
    intro acc
    rw [List.foldl_cons]
    cases hexn : acc.exn with
    | true =>
      rw [tickStep_of_exn true acc e hexn]
      exact ih acc
    | false =>
      rcases tickStep_eq acc e hexn with ⟨_, hq⟩ | ⟨_, hq⟩ <;> rw [hq, ih] <;>
        simp [List.countP_append, isBroadcastEv]

/-- Claim C3: in a sweep tick, every registered entry whose socket is
still flagged from the previous tick (`isAlive = false`, i.e. its
`awaitingLivenessResponse` is still set) is evicted from both stores with
its socket terminated; every registered live socket gets its flag set and
a probe; exactly one broadcast is issued per tick; and an entry whose
socket receives no pong across two consecutive ticks is gone after the
second one. -/
theorem c3_sweep (s : State)
    (hns : (s.sockets.map Prod.fst).Nodup)
    (hnf : (s.file.map Prod.fst).Nodup) :
    (∀ id c, lookupK id s.sockets = some c →
      (getConn s c).isAlive = false →
      lookupK id (heartbeatTick true s).st.sockets = none ∧
      lookupK id (heartbeatTick true s).st.file = none ∧
      (getConn (heartbeatTick true s).st c).isOpen = false) ∧
    (∀ c, (∃ id, lookupK id s.sockets = some c) →
      (getConn s c).isAlive = true →
      (getConn (heartbeatTick true s).st c).isAlive = false ∧
      Event.pinged c ∈ (heartbeatTick true s).out) ∧
    ((heartbeatTick true s).out.countP isBroadcastEv = 1) ∧
    (∀ id c, lookupK id s.sockets = some c →
      lookupK id
        ((heartbeatTick true (heartbeatTick true s).st).st).sockets
          = none) := by
  refine ⟨?_, ?_, ?_, ?_⟩
  · intro id c hlk hdead
    exact tick_evicts hns hnf hlk hdead
  · intro c hex halive
    rcases hex with ⟨id, hlk⟩
    have h := tickFold_ping c s.sockets ⟨s, [], false⟩ rfl
      (Or.inl ⟨⟨(id, c), lookupK_some_mem hlk, rfl⟩, halive⟩)
    refine ⟨by rw [heartbeatTick_st]; exact h.1, ?_⟩
    rw [heartbeatTick_out]
    exact List.mem_append_left _ h.2
  · rw [heartbeatTick_out, List.countP_append, tickFold_countB,
      broadcastOnline_countB]
    rfl
  · intro id c hlk
    cases halive : (getConn s c).isAlive with
    | false => exact heartbeatTick_none (tick_evicts hns hnf hlk halive).1
    | true =>
      rcases lookupK_split hlk with ⟨l1, l2, hsplit, hne1⟩
      have hid2 : ∀ e ∈ l2, e.1 ≠ id := by
        have hns' := hns
        rw [hsplit, List.map_append, List.map_cons] at hns'
        have h2 := (List.nodup_append.mp hns').2.1
        rw [List.nodup_cons] at h2
        intro e he heq
        apply h2.1
        exact List.mem_map.mpr ⟨e, he, heq⟩
      have hfold : s.sockets.foldl (tickStep true) ⟨s, [], false⟩
          = l2.foldl (tickStep true)
              (tickStep true (l1.foldl (tickStep true) ⟨s, [], false⟩)
                (id, c)) := by
        rw [hsplit, List.foldl_append, List.foldl_cons]
      have hexn1 : (l1.foldl (tickStep true) ⟨s, [], false⟩).exn = false :=
        tickFold_exn l1 ⟨s, [], false⟩ rfl
      have hnd1 := tickFold_nodup l1 ⟨s, [], false⟩ hns hnf
      have hpres1 :=
        (tickFold_lookup_pres l1 ⟨s, [], false⟩ id hne1).1
      rcases tickStep_eq (l1.foldl (tickStep true) ⟨s, [], false⟩) (id, c)
          hexn1 with ⟨_, hq⟩ | ⟨_, hq⟩
      · -- already evicted during the first tick
        have h1 : lookupK id (heartbeatTick true s).st.sockets = none := by
          rw [heartbeatTick_st, hfold]
          apply tickFold_sockets_none
          rw [hq]
          exact lookupK_delK_self id hnd1.1
        exact heartbeatTick_none h1
      · -- probed in the first tick, evicted in the second
        have hsome : lookupK id (heartbeatTick true s).st.sockets
            = some c := by
          rw [heartbeatTick_st, hfold]
          refine (tickFold_lookup_pres l2 _ id hid2).1.trans ?_
          rw [hq]
          show lookupK id
            (l1.foldl (tickStep true) ⟨s, [], false⟩).st.sockets = some c
          rw [hpres1]
          exact hlk
        have hflag : (getConn (heartbeatTick true s).st c).isAlive
            = false := by
          rw [heartbeatTick_st, hfold]
          apply tickFold_alive_false
          rw [hq, getConn_mk_setK, if_pos rfl]
        have hnd := heartbeatTick_nodup hns hnf
        exact (tick_evicts hnd.1 hnd.2 hsome hflag).1

/-- Witness for C3 at `sDead`: the socket that missed its probe is evicted
in one tick, during which exactly one broadcast happens; a live `sA`
socket is probed. -/
theorem c3_sweep_witness :
    lookupK "a1" (heartbeatTick true sDead).st.sockets = none ∧
    (heartbeatTick true sDead).out.countP isBroadcastEv = 1 ∧
    Event.pinged 0 ∈ (heartbeatTick true sA).out :=
  ⟨((c3_sweep sDead (by decide) (by decide)).1 "a1" 0 (by decide)
      (by decide)).1,
    (c3_sweep sDead (by decide) (by decide)).2.2.1,
    ((c3_sweep sA (by decide) (by decide)).2.1 0 ⟨"a1", by decide⟩
      (by decide)).2⟩

/-! ### Invariant preservation along the transition system -/

theorem tickFold_invEq : ∀ (l : List (String × Nat)) (acc : StepOut),
    InvEq acc.st → InvEq (l.foldl (tickStep true) acc).st := by
  intro l
  induction l with
  | nil => intro acc h; simpa using h
  | cons e l ih =>
    intro acc h
    rw [List.foldl_cons]
    cases hexn : acc.exn with
    | true =>
      rw [tickStep_of_exn true acc e hexn]
      exact ih acc h
    | false =>
      obtain ⟨heq, hns, hnf⟩ := h
      rcases tickStep_eq acc e hexn with ⟨_, hq⟩ | ⟨_, hq⟩ <;> rw [hq] <;>
        apply ih
      · refine ⟨?_, nodup_keys_delK e.1 hns, nodup_keys_delK e.1 hnf⟩
        intro id
        show (lookupK id (delK e.1 acc.st.file)).isSome
          = (lookupK id (delK e.1 acc.st.sockets)).isSome
        by_cases hid : id = e.1
        · subst hid
          rw [lookupK_delK_self _ hnf, lookupK_delK_self _ hns]
          rfl
        · rw [lookupK_delK_ne _ hid, lookupK_delK_ne _ hid]
          exact heq id
      · exact ⟨heq, hns, hnf⟩

theorem invEq_doAct (s : State) (a : Act) (h : InvEq s) :
    InvEq (doAct s a).st := by
  obtain ⟨heq, hns, hnf⟩ := h
  cases a with
  | connect c => exact ⟨heq, hns, hnf⟩
  | message c m =>
    cases m with
    | hello me =>
      cases me with
      | none => exact ⟨heq, hns, hnf⟩
      | some mm =>
        show InvEq (handleHello true s c (some mm)).st
        by_cases hid : mm.id = ""
        · have hred : (handleHello true s c (some mm)).st =
              updateConn s c fun cn => { cn with myId := some mm.id } := by
            simp [handleHello, hid]
          rw [hred]
          exact ⟨heq, hns, hnf⟩
        · have hred : (handleHello true s c (some mm)).st =
              ⟨setK mm.id ⟨mm.id, mm.name, mm.avatar⟩ s.file,
                setK mm.id c s.sockets,
                setK c { getConn s c with myId := some mm.id } s.conns⟩ := by
            simp [handleHello, hid, updateConn]
          rw [hred]
          refine ⟨?_, nodup_keys_setK _ _ hns, nodup_keys_setK _ _ hnf⟩
          intro id
          show (lookupK id (setK mm.id ⟨mm.id, mm.name, mm.avatar⟩
              s.file)).isSome
            = (lookupK id (setK mm.id c s.sockets)).isSome
          by_cases hidq : id = mm.id
          · subst hidq
            rw [lookupK_setK_self, lookupK_setK_self]
            rfl
          · rw [lookupK_setK_ne _ _ hidq, lookupK_setK_ne _ _ hidq]
            exact heq id
    | relay m => exact ⟨heq, hns, hnf⟩
    | pong => exact ⟨heq, hns, hnf⟩
    | other => exact ⟨heq, hns, hnf⟩
  | wsPong c => exact ⟨heq, hns, hnf⟩
  | closeEvt c =>
    show InvEq (handleClose true
      (updateConn s c fun cn => { cn with isOpen := false }) c).st
    set s' := updateConn s c fun cn => { cn with isOpen := false } with hs'
    have h' : InvEq s' := ⟨heq, hns, hnf⟩
    obtain ⟨heq', hns', hnf'⟩ := h'
    cases hmy : (getConn s' c).myId with
    | none =>
      have hcl : handleClose true s' c = ⟨s', [], false⟩ := by
        unfold handleClose
        rw [hmy]
      rw [hcl]
      exact ⟨heq', hns', hnf'⟩
    | some x =>
      by_cases hx : x = ""
      · have hcl : handleClose true s' c = ⟨s', [], false⟩ := by
          unfold handleClose
          rw [hmy]
          simp [hx]
        rw [hcl]
        exact ⟨heq', hns', hnf'⟩
      · have hred : (handleClose true s' c).st =
            ⟨delK x s'.file, delK x s'.sockets, s'.conns⟩ := by
          unfold handleClose
          rw [hmy]
          simp [hx]
        rw [hred]
        refine ⟨?_, nodup_keys_delK x hns', nodup_keys_delK x hnf'⟩
        intro id
        show (lookupK id (delK x s'.file)).isSome
          = (lookupK id (delK x s'.sockets)).isSome
        by_cases hidq : id = x
        · subst hidq
          rw [lookupK_delK_self _ hnf', lookupK_delK_self _ hns']
          rfl
        · rw [lookupK_delK_ne _ hidq, lookupK_delK_ne _ hidq]
          exact heq' id
  | tick =>
    show InvEq (heartbeatTick true s).st
    rw [heartbeatTick_st]
    exact tickFold_invEq s.sockets ⟨s, [], false⟩ ⟨heq, hns, hnf⟩

theorem invEq_steps {s tr s'} (hst : Steps s tr s') (h : InvEq s) :
    InvEq s' := by
  induction hst with
  | nil => exact h
  | cons hen hrest ih => exact ih (invEq_doAct _ _ h)

theorem untouched_getConn {x : String} {u : User} {s : State}
    (h : Untouched x u s) (c : Nat) : (getConn s c).myId ≠ some x := by
  unfold getConn
  cases hc : lookupK c s.conns with
  | none => simp [freshConn]
  | some cn => simpa using h.2.2 c cn hc

theorem untouched_updateConn {x : String} {u : User} {s : State} {c : Nat}
    {f : Conn → Conn} (h : Untouched x u s)
    (hf : (f (getConn s c)).myId ≠ some x) :
    Untouched x u (updateConn s c f) := by
  refine ⟨h.1, h.2.1, ?_⟩
  intro c' cn hc'
  have hc2 : lookupK c' (setK c (f (getConn s c)) s.conns) = some cn := hc'
  by_cases hcc : c' = c
  · subst hcc
    rw [lookupK_setK_self] at hc2
    cases hc2
    exact hf
  · rw [lookupK_setK_ne _ _ hcc] at hc2
    exact h.2.2 c' cn hc2

theorem tickFold_untouched {x : String} {u : User} :
    ∀ (l : List (String × Nat)) (acc : StepOut), (∀ e ∈ l, e.1 ≠ x) →
    Untouched x u acc.st →
    Untouched x u (l.foldl (tickStep true) acc).st := by
  intro l
  induction l with
  | nil => intro acc _ h; simpa using h
  | cons e l ih =>
    intro acc hkeys h
    rw [List.foldl_cons]
    have hrest : ∀ e' ∈ l, e'.1 ≠ x := fun e' he' =>
      hkeys e' (List.mem_cons_of_mem e he')
    have hhd : e.1 ≠ x := hkeys e (List.mem_cons_self e l)
    cases hexn : acc.exn with
    | true =>
      rw [tickStep_of_exn true acc e hexn]
      exact ih acc hrest h
    | false =>
      rcases tickStep_eq acc e hexn with ⟨_, hq⟩ | ⟨_, hq⟩ <;> rw [hq] <;>
        apply ih _ hrest
      · refine ⟨?_, lookupK_delK_none h.2.1, ?_⟩
        · show lookupK x (delK e.1 acc.st.file) = some u
          rw [lookupK_delK_ne _ (Ne.symm hhd)]
          exact h.1
        · intro c' cn hc'
          have hc2 : lookupK c'
              (setK e.2 { getConn acc.st e.2 with isOpen := false }
                acc.st.conns) = some cn := hc'
          by_cases hcc : c' = e.2
          · subst hcc
            rw [lookupK_setK_self] at hc2
            cases hc2
            exact untouched_getConn h _
          · rw [lookupK_setK_ne _ _ hcc] at hc2
            exact h.2.2 c' cn hc2
      · refine ⟨h.1, h.2.1, ?_⟩
        intro c' cn hc'
        have hc2 : lookupK c'
            (setK e.2 { getConn acc.st e.2 with isAlive := false }
              acc.st.conns) = some cn := hc'
        by_cases hcc : c' = e.2
        · subst hcc
          rw [lookupK_setK_self] at hc2
          cases hc2
          exact untouched_getConn h _
        · rw [lookupK_setK_ne _ _ hcc] at hc2
          exact h.2.2 c' cn hc2

theorem untouched_doAct {x : String} {u : User} (s : State) (a : Act)
    (hna : helloFor x a = false) (h : Untouched x u s) :
    Untouched x u (doAct s a).st := by
  cases a with
  | connect c =>
    refine ⟨h.1, h.2.1, ?_⟩
    intro c' cn hc'
    have hc2 : lookupK c' (setK c freshConn s.conns) = some cn := hc'
    by_cases hcc : c' = c
    · subst hcc
      rw [lookupK_setK_self] at hc2
      cases hc2
      simp [freshConn]
    · rw [lookupK_setK_ne _ _ hcc] at hc2
      exact h.2.2 c' cn hc2
  | message c m =>
    cases m with
    | hello me =>
      cases me with
      | none =>
        exact untouched_updateConn h (by simp)
      | some mm =>
        have hmm : mm.id ≠ x := by
          simp only [helloFor] at hna
          simpa using hna
        show Untouched x u (handleHello true s c (some mm)).st
        by_cases hid : mm.id = ""
        · have hred : (handleHello true s c (some mm)).st =
              updateConn s c fun cn => { cn with myId := some mm.id } := by
            simp [handleHello, hid]
          rw [hred]
          exact untouched_updateConn h (by simp [hmm])
        · have hred : (handleHello true s c (some mm)).st =
              ⟨setK mm.id ⟨mm.id, mm.name, mm.avatar⟩ s.file,
                setK mm.id c s.sockets,
                setK c { getConn s c with myId := some mm.id } s.conns⟩ := by
            simp [handleHello, hid, updateConn]
          rw [hred]
          refine ⟨?_, ?_, ?_⟩
          · show lookupK x (setK mm.id ⟨mm.id, mm.name, mm.avatar⟩ s.file)
              = some u
            rw [lookupK_setK_ne _ _ (Ne.symm hmm)]
            exact h.1
          · show lookupK x (setK mm.id c s.sockets) = none
            rw [lookupK_setK_ne _ _ (Ne.symm hmm)]
            exact h.2.1
          · intro c' cn hc'
            have hc2 : lookupK c'
                (setK c { getConn s c with myId := some mm.id } s.conns)
                  = some cn := hc'
            by_cases hcc : c' = c
            · subst hcc
              rw [lookupK_setK_self] at hc2
              cases hc2
              simp [hmm]
            · rw [lookupK_setK_ne _ _ hcc] at hc2
              exact h.2.2 c' cn hc2
    | relay m => exact h
    | pong => exact untouched_updateConn h (untouched_getConn h c)
    | other => exact h
  | wsPong c => exact untouched_updateConn h (untouched_getConn h c)
  | closeEvt c =>
    show Untouched x u (handleClose true
      (updateConn s c fun cn => { cn with isOpen := false }) c).st
    set s' := updateConn s c fun cn => { cn with isOpen := false } with hs'
    have h' : Untouched x u s' :=
      untouched_updateConn h (untouched_getConn h c)
    cases hmy : (getConn s' c).myId with
    | none =>
      have hcl : handleClose true s' c = ⟨s', [], false⟩ := by
        unfold handleClose
        rw [hmy]
      rw [hcl]
      exact h'
    | some y =>
      have hyx : y ≠ x := by
        intro hh
        apply untouched_getConn h' c
        rw [hmy, hh]
      by_cases hy : y = ""
      · have hcl : handleClose true s' c = ⟨s', [], false⟩ := by
          unfold handleClose
          rw [hmy]
          simp [hy]
        rw [hcl]
        exact h'
      · have hred : (handleClose true s' c).st =
            ⟨delK y s'.file, delK y s'.sockets, s'.conns⟩ := by
          unfold handleClose
          rw [hmy]
          simp [hy]
        rw [hred]
        refine ⟨?_, lookupK_delK_none h'.2.1, h'.2.2⟩
        show lookupK x (delK y s'.file) = some u
        rw [lookupK_delK_ne _ (Ne.symm hyx)]
        exact h'.1
  | tick =>
    show Untouched x u (heartbeatTick true s).st
    rw [heartbeatTick_st]
    exact tickFold_untouched s.sockets ⟨s, [], false⟩
      (fun e he => (lookupK_eq_none_iff x s.sockets).mp h.2.1 e he) h

theorem untouched_steps {x : String} {u : User} {s : State} {tr : List Act}
    {s' : State} (hst : Steps s tr s')
    (hno : ∀ a ∈ tr, helloFor x a = false) (h : Untouched x u s) :
    Untouched x u s' := by
  induction hst with
  | nil => exact h
  | cons hen hrest ih =>
    refine ih (fun a ha => hno a (List.mem_cons_of_mem _ ha)) ?_
    exact untouched_doAct _ _ (hno _ (List.mem_cons_self _ _)) h

/-- Counterexample to claim C1 as stated: with a pre-seeded `online.json`
(`loadOnline()` returning `fpre`), the server's initial state — reachable
by the empty trace — has `"u"` in the Presence Store but no entry in the
Connection Registry. -/
theorem c1_counterexample :
    Reachable fpre (init fpre) ∧
    ¬ ((lookupK "u" (init fpre).file).isSome
        = (lookupK "u" (init fpre).sockets).isSome) :=
  ⟨⟨[], Steps.nil _⟩, by decide⟩

/-- Claim C1 (amended): provided the side file is empty at startup, every
reachable state has exactly the same identifiers in the Presence Store and
in the Connection Registry; every operation mutates both together.  (With
a non-empty side file the pre-seeded, registry-less entries falsify the
equality, see the counterexample.) -/
theorem c1_amended_presence_matches_registry (s : State)
    (hreach : Reachable [] s) (id : String) :
    (lookupK id s.file).isSome = (lookupK id s.sockets).isSome := by
  rcases hreach with ⟨tr, hsteps⟩
  exact (invEq_steps hsteps ⟨fun _ => rfl, by decide, by decide⟩).1 id

/-- Witness for C1 (amended) on the trace `connect 0; hello a1`: after the
registration both stores contain `"a1"`. -/
theorem c1_amended_witness :
    (lookupK "a1" ((doAct (doAct (init []) (Act.connect 0)).st
      (Act.message 0 (InMsg.hello (some ⟨"a1", "Alice", "x"⟩)))).st).file).isSome
    = (lookupK "a1" ((doAct (doAct (init []) (Act.connect 0)).st
      (Act.message 0 (InMsg.hello (some ⟨"a1", "Alice", "x"⟩)))).st).sockets).isSome :=
  c1_amended_presence_matches_registry _
    ⟨[Act.connect 0, Act.message 0 (InMsg.hello (some ⟨"a1", "Alice", "x"⟩))],
      Steps.cons (by decide) (Steps.cons (by decide) (Steps.nil _))⟩ "a1"

/-- Claim C10: a presence entry pre-seeded from the side file whose
identifier no `hello` ever registers survives every operation — it stays
in the file, appears in every status query and in every broadcast payload
(the sweeper iterates only registered sockets and never touches it). -/
theorem c10_preseed_persists (f0 : List (String × User)) (tr : List Act)
    (s : State) (x : String) (u : User)
    (h0 : lookupK x f0 = some u)
    (hno : ∀ a ∈ tr, helloFor x a = false)
    (hsteps : Steps (init f0) tr s) :
    lookupK x s.file = some u ∧ u ∈ onlineQuery s ∧
    ∃ us rest, broadcastOnline s = Event.broadcast us :: rest ∧ u ∈ us := by
  have h : Untouched x u (init f0) := by
    refine ⟨h0, rfl, ?_⟩
    intro c cn hc
    simp [init, lookupK] at hc
  have h' := untouched_steps hsteps hno h
  have hmem : u ∈ onlineQuery s :=
    List.mem_map.mpr ⟨(x, u), lookupK_some_mem h'.1, rfl⟩
  exact ⟨h'.1, hmem, onlineQuery s, _, broadcastOnline_eq s, hmem⟩

/-- Witness for C10: the pre-seeded `"u"` entry survives a sweeper tick
from startup. -/
theorem c10_preseed_persists_witness :
    lookupK "u" ((doAct (init fpre) Act.tick).st).file
      = some ⟨"u", "Norbert", "av"⟩ :=
  (c10_preseed_persists fpre [Act.tick] _ "u" ⟨"u", "Norbert", "av"⟩
    (by decide) (by decide) (Steps.cons (by decide) (Steps.nil _))).1

end Signal
